import Mathlib

/-!
Verification of the sweep-line Voronoi engine (`tree.go` of quasoft/voronoi)
against its natural-language specification.

The Go source is shallowly embedded as follows.

* Go pointers to `Event` and tree `Node` records are modelled by numeric
  ids; pointer equality becomes id equality.  Event records live in an
  append-only arena `Voronoi.events`; tree nodes carry their id in their
  record and are mutated through the id or through their path from the
  root.
* The beach-line tree (Go `Node` with parent/child pointers) is modelled
  by an inductive binary tree `BTree` whose every node carries the
  `NodeData` record of the Go `Node`; parent pointers are replaced by
  root paths (`TreePath`), and the pointer-walking traversals `PrevArc`,
  `NextArc`, `FirstArc`, `LastArc` become path computations.
* Go `float64` arithmetic in `calcCircle` is modelled by exact rational
  arithmetic, and `math.Pow(s, 0.5)` together with the final
  `int(cr + 0.5)` conversion by an exact rounded integer square root.
* Code of the repository that is not part of the given source file
  (the event queue, `GetXOfInternalNode`, `GetYByX`, `CloseTwins`) and
  the external `dcel` package are modelled from the specification; each
  such definition carries a doc comment starting `Modelled from the
  spec:`.
-/

/-- Event identity: Go stores `*Event` pointers; pointer identity is
modelled by a numeric event id into the event arena. -/
abbrev EventId := Nat

/-- Go type `CircleEvents []*Event` (tree.go line 9): one per-arc list of
circle-event participations. -/
abbrev CircleEvents := List EventId

/-- One iteration of the downward loop of `CircleEvents.RemoveEvent`
(tree.go lines 12-17) at index `i`: if the entry at `i` equals the event,
overwrite it with the current last entry and truncate the last slot. -/
def removeEventStep (ce : CircleEvents) (e : EventId) (i : Nat) : CircleEvents :=
  if h : i < ce.length then
    if ce.get ⟨i, h⟩ = e then
      (ce.set i (ce.get ⟨ce.length - 1, by omega⟩)).dropLast
    else ce
  else ce

/-- The loop of `CircleEvents.RemoveEvent`, running indices
`i-1, i-2, ..., 0` on the successively mutated list. -/
def removeEventGo (e : EventId) : Nat → CircleEvents → CircleEvents
  | 0, ce => ce
  | i + 1, ce => removeEventGo e i (removeEventStep ce e i)

/-- Go `CircleEvents.RemoveEvent` (tree.go lines 11-18): remove every
occurrence of the event by swap-with-last and truncate, scanning from the
last index down to 0. -/
def CircleEvents.RemoveEvent (ce : CircleEvents) (e : EventId) : CircleEvents :=
  removeEventGo e ce.length ce

/-- Go `CircleEvents.HasEvent` (tree.go lines 20-27): linear membership
scan by pointer (here id) equality. -/
def CircleEvents.HasEvent (ce : CircleEvents) (e : EventId) : Bool :=
  ce.contains e

theorem removeEventStep_eq_out (ce : CircleEvents) (e : EventId) (i : Nat)
    (hlen : ¬ i < ce.length) : removeEventStep ce e i = ce := by
  simp [removeEventStep, hlen]

theorem removeEventStep_eq_skip (ce : CircleEvents) (e : EventId) (i : Nat)
    (hlen : i < ce.length) (hne : ce[i] ≠ e) :
    removeEventStep ce e i = ce := by
  simp only [removeEventStep, dif_pos hlen, List.get_eq_getElem]
  rw [if_neg hne]

theorem removeEventStep_eq_hit (ce : CircleEvents) (e : EventId) (i : Nat)
    (hlen : i < ce.length) (heq : ce[i] = e) :
    removeEventStep ce e i =
      (ce.set i (ce.get ⟨ce.length - 1, by omega⟩)).dropLast := by
  simp only [removeEventStep, dif_pos hlen, List.get_eq_getElem]
  rw [if_pos heq]

theorem removeEventStep_not_mem_of (ce : CircleEvents) (e : EventId) (i : Nat)
    (hup : ∀ j (h : j < ce.length), i + 1 ≤ j → ce[j] ≠ e) :
    ∀ j (h : j < (removeEventStep ce e i).length), i ≤ j →
      (removeEventStep ce e i)[j] ≠ e := by
  by_cases hlen : i < ce.length
  · by_cases hmatch : ce[i] = e
    · rw [removeEventStep_eq_hit ce e i hlen hmatch]
      intro j hj hij
      have hjlt : j < ce.length - 1 := by
        have := hj; simp at this; omega
      have hjset : j < (ce.set i (ce.get ⟨ce.length - 1, by omega⟩)).length := by
        simp; omega
      rw [List.getElem_dropLast, List.getElem_set hjset]
      by_cases hji : i = j
      · subst hji
        simp only [if_pos rfl]
        exact hup (ce.length - 1) (by omega) (by omega)
      · simp only [if_neg hji]
        exact hup j (by omega) (by omega)
    · rw [removeEventStep_eq_skip ce e i hlen hmatch]
      intro j hj hij
      by_cases hji : j = i
      · subst hji; exact hmatch
      · exact hup j hj (by omega)
  · rw [removeEventStep_eq_out ce e i hlen]
    intro j hj hij
    exact hup j hj (by omega)

theorem removeEventGo_not_mem (e : EventId) :
    ∀ (i : Nat) (ce : CircleEvents),
      (∀ j (h : j < ce.length), i ≤ j → ce[j] ≠ e) →
      e ∉ removeEventGo e i ce := by
  intro i
  induction i with
  | zero =>
    intro ce hce hmem
    rw [removeEventGo] at hmem
    obtain ⟨j, hj, hget⟩ := List.mem_iff_getElem.mp hmem
    exact hce j hj (Nat.zero_le _) hget
  | succ i ih =>
    intro ce hce
    exact ih (removeEventStep ce e i) (removeEventStep_not_mem_of ce e i hce)

theorem removeEventStep_mem_preserved (ce : CircleEvents) (e x : EventId) (i : Nat)
    (hne : x ≠ e) (hx : x ∈ ce) : x ∈ removeEventStep ce e i := by
  by_cases hlen : i < ce.length
  · by_cases hmatch : ce[i] = e
    · rw [removeEventStep_eq_hit ce e i hlen hmatch]
      obtain ⟨k, hk, rfl⟩ := List.mem_iff_getElem.mp hx
      have hki : k ≠ i := by
        intro h; subst h
        exact hne hmatch
      by_cases hlast : k = ce.length - 1
      · subst hlast
        -- the last entry has been moved into slot i, which survives dropLast
        have hil : i < ce.length - 1 := by omega
        have hidx : i < ((ce.set i (ce.get ⟨ce.length - 1, by omega⟩)).dropLast).length := by
          simp; omega
        refine List.mem_iff_getElem.mpr ⟨i, hidx, ?_⟩
        have hiset : i < (ce.set i (ce.get ⟨ce.length - 1, by omega⟩)).length := by
          simp; omega
        rw [List.getElem_dropLast, List.getElem_set hiset]
        simp
      · have hkl : k < ce.length - 1 := by omega
        have hidx : k < ((ce.set i (ce.get ⟨ce.length - 1, by omega⟩)).dropLast).length := by
          simp; omega
        refine List.mem_iff_getElem.mpr ⟨k, hidx, ?_⟩
        have hkset : k < (ce.set i (ce.get ⟨ce.length - 1, by omega⟩)).length := by
          simp; omega
        rw [List.getElem_dropLast, List.getElem_set hkset]
        simp [Ne.symm hki]
    · rw [removeEventStep_eq_skip ce e i hlen hmatch]; exact hx
  · rw [removeEventStep_eq_out ce e i hlen]; exact hx

theorem removeEventGo_mem_preserved (e x : EventId) (hne : x ≠ e) :
    ∀ (i : Nat) (ce : CircleEvents), x ∈ ce → x ∈ removeEventGo e i ce := by
  intro i
  induction i with
  | zero => intro ce hx; exact hx
  | succ i ih =>
    intro ce hx
    exact ih _ (removeEventStep_mem_preserved ce e x i hne hx)

/-- C9: after `RemoveEvent e`, the participation list no longer contains
any occurrence of `e` (`HasEvent e` is false), and every event distinct
from `e` that was in the list before the call is still in it afterwards. -/
theorem c9_removeEvent_correct (ce : CircleEvents) (e : EventId) :
    CircleEvents.HasEvent (CircleEvents.RemoveEvent ce e) e = false ∧
      ∀ x, x ≠ e → x ∈ ce → x ∈ CircleEvents.RemoveEvent ce e := by
  constructor
  · have hnot : e ∉ CircleEvents.RemoveEvent ce e := by
      apply removeEventGo_not_mem e ce.length ce
      intro j hj hij
      omega
    simpa [CircleEvents.HasEvent, List.contains] using hnot
  · intro x hxe hx
    exact removeEventGo_mem_preserved e x hxe ce.length ce hx

/-- Witness for C9 at a concrete list: removing event 3 from `[3, 5, 3]`
leaves 5 in the list and no occurrence of 3. -/
theorem c9_removeEvent_correct_witness :
    CircleEvents.HasEvent (CircleEvents.RemoveEvent [3, 5, 3] 3) 3 = false ∧
      (5 ≠ 3 ∧ 5 ∈ ([3, 5, 3] : CircleEvents)) ∧
      5 ∈ CircleEvents.RemoveEvent [3, 5, 3] 3 := by
  refine ⟨(c9_removeEvent_correct [3, 5, 3] 3).1, ⟨by decide, by decide⟩, ?_⟩
  exact (c9_removeEvent_correct [3, 5, 3] 3).2 5 (by decide) (by decide)

/-- Go struct `Site` (used throughout tree.go): integer coordinates and
id.  The one-time back-reference to the site's face is not stored here;
`handleSiteEvent` gives the face the same id as the site, so face
references are modelled by the site id. -/
structure Site where
  X : Int
  Y : Int
  ID : Int
deriving DecidableEq, Repr

/-- Truncation of a rational toward zero, Go `int(q)` on a float64. -/
def ratTrunc (q : ℚ) : ℤ :=
  q.num / (q.den : ℤ)

/-- Integer square root ⌊√n⌋, implemented by counting the k ≤ n with
k² ≤ n (the count is ⌊√n⌋ + 1), so that it evaluates by kernel
reduction. -/
def isqrt (n : Nat) : Nat :=
  ((List.range (n + 1)).filter (fun k => k * k ≤ n)).length - 1

/-- Rounded integer square root of a nonnegative rational: the value of
Go `int(math.Pow(s, 0.5) + 0.5)` computed exactly, namely
`⌊√s + 1/2⌋ = (⌊√⌊4s⌋⌋ + 1) / 2`. -/
def ratSqrtRound (q : ℚ) : ℤ :=
  ((isqrt ((4 * q).floor.toNat) + 1) / 2 : ℕ)

/-- Go `Voronoi.calcCircle` (tree.go lines 388-434): circumscribed circle
of three sites, returning rounded integer center and radius, or `none`
exactly where the Go code sets a non-nil error.  The Go float64
arithmetic is modelled by exact rational arithmetic and the final square
root by `ratSqrtRound`. -/
def calcCircle (site1 site2 site3 : Site) : Option (ℤ × ℤ × ℤ) :=
  let x1 : ℚ := site1.X
  let y1 : ℚ := site1.Y
  let x2 : ℚ := site2.X
  let y2 : ℚ := site2.Y
  let x3 : ℚ := site3.X
  let y3 : ℚ := site3.Y
  let determinant := (x2*y3 + x1*y2 + y1*x3) - (y1*x2 + y2*x3 + x1*y3)
  if determinant < 0 then none
  else if x2 - x1 = 0 ∨ x3 - x2 = 0 then none
  else
    let mr := (y2 - y1) / (x2 - x1)
    let mt := (y3 - y2) / (x3 - x2)
    if mr = mt ∨ mr - mt = 0 ∨ mr = 0 then none
    else
      let cx := (mr*mt*(y3 - y1) + mr*(x2 + x3) - mt*(x1 + x2)) / (2*(mr - mt))
      let cy := (y1 + y2)/2 - (cx - (x1 + x2)/2)/mr
      let cr2 := (x2 - cx)^2 + (y2 - cy)^2
      some (ratTrunc (cx + 1/2), ratTrunc (cy + 1/2), ratSqrtRound cr2)

/-- Characterization of the rejection branches of `calcCircle`: the result
is `none` exactly when one of the three guard conditions of the Go code
holds (tree.go lines 404, 410, 419). -/
theorem calcCircle_none_iff (s1 s2 s3 : Site) :
    calcCircle s1 s2 s3 = none ↔
      ((s2.X : ℚ)*s3.Y + s1.X*s2.Y + s1.Y*s3.X) - (s1.Y*s2.X + s2.Y*s3.X + s1.X*s3.Y) < 0 ∨
      (s2.X : ℚ) - s1.X = 0 ∨ (s3.X : ℚ) - s2.X = 0 ∨
      ((s2.Y : ℚ) - s1.Y) / (s2.X - s1.X) = ((s3.Y : ℚ) - s2.Y) / (s3.X - s2.X) ∨
      ((s2.Y : ℚ) - s1.Y) / (s2.X - s1.X) - ((s3.Y : ℚ) - s2.Y) / (s3.X - s2.X) = 0 ∨
      ((s2.Y : ℚ) - s1.Y) / (s2.X - s1.X) = 0 := by
  unfold calcCircle
  by_cases hdet : ((s2.X : ℚ)*s3.Y + s1.X*s2.Y + s1.Y*s3.X) -
      (s1.Y*s2.X + s2.Y*s3.X + s1.X*s3.Y) < 0
  · simp [hdet]
  · by_cases hx : (s2.X : ℚ) - s1.X = 0 ∨ (s3.X : ℚ) - s2.X = 0
    · simp [hdet, hx]
      tauto
    · by_cases hm : ((s2.Y : ℚ) - s1.Y) / (s2.X - s1.X) = ((s3.Y : ℚ) - s2.Y) / (s3.X - s2.X) ∨
          ((s2.Y : ℚ) - s1.Y) / (s2.X - s1.X) - ((s3.Y : ℚ) - s2.Y) / (s3.X - s2.X) = 0 ∨
          ((s2.Y : ℚ) - s1.Y) / (s2.X - s1.X) = 0
      · simp [hdet, hx, hm]
        tauto
      · simp [hdet, hx, hm]
        tauto

/-- C5 (amended): `calcCircle` rejects the triple exactly when the
orientation determinant indicates clockwise or degenerate orientation
(determinant at most 0), or either consecutive pair of sites shares the
same x-coordinate, or the two chord slopes are equal, or the first chord
slope is zero.  A zero second chord slope alone does not cause rejection
(this is the correction to the claim). -/
theorem c5_calcCircle_reject_iff (s1 s2 s3 : Site) :
    calcCircle s1 s2 s3 = none ↔
      ((s2.X : ℚ)*s3.Y + s1.X*s2.Y + s1.Y*s3.X) - (s1.Y*s2.X + s2.Y*s3.X + s1.X*s3.Y) ≤ 0 ∨
      (s2.X : ℚ) - s1.X = 0 ∨ (s3.X : ℚ) - s2.X = 0 ∨
      ((s2.Y : ℚ) - s1.Y) / (s2.X - s1.X) = ((s3.Y : ℚ) - s2.Y) / (s3.X - s2.X) ∨
      ((s2.Y : ℚ) - s1.Y) / (s2.X - s1.X) = 0 := by
  rw [calcCircle_none_iff]
  constructor
  · rintro (h | h | h | h | h | h)
    · exact Or.inl (le_of_lt h)
    · exact Or.inr (Or.inl h)
    · exact Or.inr (Or.inr (Or.inl h))
    · exact Or.inr (Or.inr (Or.inr (Or.inl h)))
    · exact Or.inr (Or.inr (Or.inr (Or.inl (sub_eq_zero.mp h))))
    · exact Or.inr (Or.inr (Or.inr (Or.inr h)))
  · rintro (h | h | h | h | h)
    · rcases lt_or_eq_of_le h with hlt | heq
      · exact Or.inl hlt
      · -- degenerate determinant: the three points are collinear, so with
        -- both x-differences nonzero the two chord slopes agree
        by_cases hx1 : (s2.X : ℚ) - s1.X = 0
        · exact Or.inr (Or.inl hx1)
        · by_cases hx2 : (s3.X : ℚ) - s2.X = 0
          · exact Or.inr (Or.inr (Or.inl hx2))
          · refine Or.inr (Or.inr (Or.inr (Or.inl ?_)))
            rw [div_eq_div_iff hx1 hx2]
            nlinarith [heq]
    · exact Or.inr (Or.inl h)
    · exact Or.inr (Or.inr (Or.inl h))
    · exact Or.inr (Or.inr (Or.inr (Or.inl h)))
    · exact Or.inr (Or.inr (Or.inr (Or.inr (Or.inr h))))

/-- C5 counterexample: for the sites (0,0), (1,-1), (2,-1) the second
chord slope is zero, so the claim as stated demands rejection, but
`calcCircle` accepts the triple and returns a circle. -/
theorem c5_counterexample :
    ((( ⟨2,-1,2⟩ : Site).Y : ℚ) - (⟨1,-1,1⟩ : Site).Y) /
        ((( ⟨2,-1,2⟩ : Site).X : ℚ) - (⟨1,-1,1⟩ : Site).X) = 0 ∧
      calcCircle ⟨0,0,0⟩ ⟨1,-1,1⟩ ⟨2,-1,2⟩ ≠ none := by
  constructor
  · norm_num
  · rw [Ne, calcCircle_none_iff]
    push_neg
    norm_num

/-- A child direction in the beach-line tree. -/
inductive Dir where
  | left
  | right
deriving DecidableEq, Repr

/-- A position in the beach-line tree: the list of child directions from
the root.  This replaces the Go parent pointers: Go walks `n.Parent`
chains, the model walks the path. -/
abbrev TreePath := List Dir

/-- Edge identity into the planar-graph arena (Go `*dcel.HalfEdge`). -/
abbrev EdgeId := Nat

/-- The record part of Go struct `Node` (tree.go lines 29-39): the site
(nil on internal nodes), the three circle-event participation lists and
the two incident half-edge lists, plus the node id standing in for the
Go pointer identity. -/
structure NodeData where
  id : Nat
  Site : Option Site
  LeftEvents : CircleEvents
  MiddleEvents : CircleEvents
  RightEvents : CircleEvents
  LeftEdges : List EdgeId
  RightEdges : List EdgeId
deriving DecidableEq, Repr

/-- A fresh leaf record for a site, all lists empty. -/
def mkArc (nid : Nat) (site : Site) : NodeData :=
  { id := nid, Site := some site, LeftEvents := [], MiddleEvents := [],
    RightEvents := [], LeftEdges := [], RightEdges := [] }

/-- The beach-line tree.  Go `Node` pointers form a binary tree whose
internal nodes always have both children; leaves are arcs.  Every node
carries its `NodeData` record. -/
inductive BTree where
  | leaf : NodeData → BTree
  | node : NodeData → BTree → BTree → BTree
deriving DecidableEq, Repr

namespace BTree

/-- The record stored at the root of a subtree. -/
def data : BTree → NodeData
  | leaf d => d
  | node d _ _ => d

/-- Go `Node.IsLeaf` (tree.go line 65). -/
def IsLeaf : BTree → Bool
  | leaf _ => true
  | node _ _ _ => false

/-- The subtree at a path, if the path is valid. -/
def subtreeAt : BTree → TreePath → Option BTree
  | t, [] => some t
  | leaf _, _ :: _ => none
  | node _ l _, Dir.left :: p => subtreeAt l p
  | node _ _ r, Dir.right :: p => subtreeAt r p

/-- Replace the subtree at a path. -/
def replaceAt : BTree → TreePath → BTree → BTree
  | _, [], s => s
  | leaf d, _ :: _, _ => leaf d
  | node d l r, Dir.left :: p, s => node d (replaceAt l p s) r
  | node d l r, Dir.right :: p, s => node d l (replaceAt r p s)

/-- Update the record of the node whose id is `nid`, wherever it is.
This models mutation through a retained Go pointer, which stays attached
to the node across tree restructurings. -/
def updateById (t : BTree) (nid : Nat) (f : NodeData → NodeData) : BTree :=
  match t with
  | leaf d => if d.id = nid then leaf (f d) else leaf d
  | node d l r =>
      let d' := if d.id = nid then f d else d
      node d' (updateById l nid f) (updateById r nid f)

/-- The path of the leaf with id `nid`, if present. -/
def findLeafPath : BTree → Nat → Option TreePath
  | leaf d, nid => if d.id = nid then some [] else none
  | node _ l r, nid =>
      match findLeafPath l nid with
      | some p => some (Dir.left :: p)
      | none =>
          match findLeafPath r nid with
          | some p => some (Dir.right :: p)
          | none => none

/-- Go `Node.FirstArc` (tree.go lines 145-155) as a path: descend to the
leftmost leaf (internal nodes always have both children, so the Go
nil-checks always take the left branch). -/
def firstPath : BTree → TreePath
  | leaf _ => []
  | node _ l _ => Dir.left :: firstPath l

/-- Go `Node.LastArc` (tree.go lines 157-167) as a path: descend to the
rightmost leaf. -/
def lastPath : BTree → TreePath
  | leaf _ => []
  | node _ _ r => Dir.right :: lastPath r

/-- Number of leaves (arcs) of the beach line. -/
def leafCount : BTree → Nat
  | leaf _ => 1
  | node _ l r => leafCount l + leafCount r

/-- Number of internal (breakpoint) nodes of the beach line. -/
def internalCount : BTree → Nat
  | leaf _ => 0
  | node _ l r => internalCount l + internalCount r + 1

end BTree

/-- The climbing loop of Go `Node.PrevArc` (tree.go lines 98-106) on the
reversed root path: while the node is its parent's left child, climb; on
reaching the root this way there is no previous arc; otherwise step to
the parent's left child. -/
def climbLeft : List Dir → Option (List Dir)
  | [] => none
  | Dir.left :: rest => climbLeft rest
  | Dir.right :: rest => some (Dir.left :: rest)

/-- The climbing loop of Go `Node.NextArc` (tree.go lines 128-136),
mirror image of `climbLeft`. -/
def climbRight : List Dir → Option (List Dir)
  | [] => none
  | Dir.right :: rest => climbRight rest
  | Dir.left :: rest => some (Dir.right :: rest)

/-- Go `Node.PrevArc` (tree.go lines 85-113) as a path computation: for
an internal node, its last arc; for a leaf, climb while the node is a
left child, then take the last arc of the sibling subtree on the left. -/
def prevArcPath (t : BTree) (p : TreePath) : Option TreePath :=
  match BTree.subtreeAt t p with
  | none => none
  | some (BTree.node _ _ _) =>
      match BTree.subtreeAt t p with
      | some sub => some (p ++ BTree.lastPath sub)
      | none => none
  | some (BTree.leaf _) =>
      match climbLeft p.reverse with
      | none => none
      | some q =>
          let q' := q.reverse
          match BTree.subtreeAt t q' with
          | some sub => some (q' ++ BTree.lastPath sub)
          | none => none

/-- Go `Node.NextArc` (tree.go lines 115-143) as a path computation,
mirror image of `prevArcPath`. -/
def nextArcPath (t : BTree) (p : TreePath) : Option TreePath :=
  match BTree.subtreeAt t p with
  | none => none
  | some (BTree.node _ _ _) =>
      match BTree.subtreeAt t p with
      | some sub => some (p ++ BTree.firstPath sub)
      | none => none
  | some (BTree.leaf _) =>
      match climbRight p.reverse with
      | none => none
      | some q =>
          let q' := q.reverse
          match BTree.subtreeAt t q' with
          | some sub => some (q' ++ BTree.firstPath sub)
          | none => none

theorem firstPath_all_left (t : BTree) : ∀ d ∈ t.firstPath, d = Dir.left := by
  induction t with
  | leaf d => intro d hd; simp [BTree.firstPath] at hd
  | node d l r ihl ihr =>
    intro d hd
    simp only [BTree.firstPath, List.mem_cons] at hd
    rcases hd with rfl | hd
    · rfl
    · exact ihl d hd

theorem lastPath_all_right (t : BTree) : ∀ d ∈ t.lastPath, d = Dir.right := by
  induction t with
  | leaf d => intro d hd; simp [BTree.lastPath] at hd
  | node d l r ihl ihr =>
    intro d hd
    simp only [BTree.lastPath, List.mem_cons] at hd
    rcases hd with rfl | hd
    · rfl
    · exact ihr d hd

theorem climbLeft_none_of_all_left (l : List Dir) (h : ∀ d ∈ l, d = Dir.left) :
    climbLeft l = none := by
  induction l with
  | nil => rfl
  | cons d rest ih =>
    have hd : d = Dir.left := h d (List.mem_cons_self ..)
    subst hd
    rw [climbLeft]
    exact ih (fun d hd => h d (List.mem_cons_of_mem _ hd))

theorem climbRight_none_of_all_right (l : List Dir) (h : ∀ d ∈ l, d = Dir.right) :
    climbRight l = none := by
  induction l with
  | nil => rfl
  | cons d rest ih =>
    have hd : d = Dir.right := h d (List.mem_cons_self ..)
    subst hd
    rw [climbRight]
    exact ih (fun d hd => h d (List.mem_cons_of_mem _ hd))

theorem subtreeAt_firstPath (t : BTree) :
    ∃ d, BTree.subtreeAt t t.firstPath = some (BTree.leaf d) := by
  induction t with
  | leaf d => exact ⟨d, rfl⟩
  | node d l r ihl ihr =>
    obtain ⟨d0, hd0⟩ := ihl
    exact ⟨d0, by simpa [BTree.firstPath, BTree.subtreeAt] using hd0⟩

theorem subtreeAt_lastPath (t : BTree) :
    ∃ d, BTree.subtreeAt t t.lastPath = some (BTree.leaf d) := by
  induction t with
  | leaf d => exact ⟨d, rfl⟩
  | node d l r ihl ihr =>
    obtain ⟨d0, hd0⟩ := ihr
    exact ⟨d0, by simpa [BTree.lastPath, BTree.subtreeAt] using hd0⟩

theorem prevArcPath_firstPath (t : BTree) : prevArcPath t t.firstPath = none := by
  obtain ⟨d, hd⟩ := subtreeAt_firstPath t
  have hclimb : climbLeft t.firstPath.reverse = none := by
    apply climbLeft_none_of_all_left
    intro x hx
    exact firstPath_all_left t x (List.mem_reverse.mp hx)
  rw [prevArcPath, hd, hclimb]

theorem nextArcPath_lastPath (t : BTree) : nextArcPath t t.lastPath = none := by
  obtain ⟨d, hd⟩ := subtreeAt_lastPath t
  have hclimb : climbRight t.lastPath.reverse = none := by
    apply climbRight_none_of_all_right
    intro x hx
    exact lastPath_all_right t x (List.mem_reverse.mp hx)
  rw [nextArcPath, hd, hclimb]

/-- One directed half-edge of the planar graph.  Modelled from the spec:
the external collaborator owns half-edges in twin pairs, each eventually
bearing an origin vertex and attached to one face. -/
structure HalfEdge where
  face : Int
  origin : Option (Int × Int)
  twin : EdgeId
deriving DecidableEq, Repr

/-- Modelled from the spec: the external planar-graph collaborator
(`github.com/quasoft/dcel`): faces (identified by the site id assigned in
`handleSiteEvent`), vertices, and half-edges in twin pairs. -/
structure DCEL where
  faces : List Int
  vertices : List (Int × Int)
  halfEdges : List HalfEdge
deriving DecidableEq, Repr

/-- Modelled from the spec: a fresh empty planar graph (`dcel.NewDCEL`). -/
def DCEL.empty : DCEL :=
  { faces := [], vertices := [], halfEdges := [] }

/-- Modelled from the spec: create a face; `handleSiteEvent` gives it the
site's id. -/
def DCEL.newFace (d : DCEL) (fid : Int) : DCEL :=
  { d with faces := d.faces ++ [fid] }

/-- Modelled from the spec: create a vertex at the given point. -/
def DCEL.newVertex (d : DCEL) (v : Int × Int) : DCEL :=
  { d with vertices := d.vertices ++ [v] }

/-- Modelled from the spec: create a pair of twin half-edges for a new
boundary between two faces anchored at a vertex; returns the new graph
and the ids of the two twins. -/
def DCEL.newEdge (d : DCEL) (f1 f2 : Int) (v : Int × Int) :
    DCEL × EdgeId × EdgeId :=
  let i1 := d.halfEdges.length
  let i2 := i1 + 1
  ({ d with halfEdges := d.halfEdges ++
      [{ face := f1, origin := some v, twin := i2 },
       { face := f2, origin := none, twin := i1 }] }, i1, i2)

/-- Set the origin vertex of one half-edge. -/
def DCEL.setOrigin (d : DCEL) (e : EdgeId) (v : Int × Int) : DCEL :=
  match d.halfEdges.get? e with
  | none => d
  | some he => { d with halfEdges := d.halfEdges.set e { he with origin := some v } }

/-- Modelled from the spec: `Voronoi.CloseTwins` (missing from the given
source file; called at tree.go lines 480, 481, 498, 499) closes the listed
half-edge pairs by assigning the vertex as the origin of each twin. -/
def DCEL.CloseTwins (d : DCEL) (es : List EdgeId) (v : Int × Int) : DCEL :=
  es.foldl (fun acc e =>
    match acc.halfEdges.get? e with
    | none => acc
    | some he => acc.setOrigin he.twin v) d

/-- The two Go event kinds (`EventSite`, `EventCircle`). -/
inductive EType where
  | site
  | circle
deriving DecidableEq, Repr

/-- The Go `Event` record: kind, coordinates (for a circle event `Y` is
the bottom of the circle and `Radius` its radius), the site of a site
event (Go field `Site`, renamed `SiteRef` to avoid clashing with the type
name), the id of the middle arc of a circle event (Go field `Node`), and
the queue slot token (Go field `index`, -1 once removed or popped). -/
structure EventRec where
  EventType : EType
  X : Int
  Y : Int
  Radius : Int
  SiteRef : Option Site
  Node : Option Nat
  index : Int
deriving DecidableEq, Repr

/-- Go struct `Voronoi` (tree.go lines 203-210) together with the event
arena that stands in for Go heap allocation of events.  `EventQueue`
holds the ids of the queued events; `nextNodeId` feeds fresh tree-node
ids (standing in for fresh Go pointers). -/
structure Voronoi where
  BoundsMin : Int × Int
  BoundsMax : Int × Int
  Sites : List Site
  events : List EventRec
  EventQueue : List EventId
  ParabolaTree : Option BTree
  SweepLine : Int
  dcel : DCEL
  nextNodeId : Nat
deriving DecidableEq, Repr

/-- Dereference an event id (a Go `*Event`). -/
def getEvent (s : Voronoi) (i : EventId) : EventRec :=
  (s.events.get? i).getD
    { EventType := .site, X := 0, Y := 0, Radius := 0, SiteRef := none,
      Node := none, index := 0 }

/-- Modelled from the spec: a site event for one site, queued at the
given slot. -/
def siteEvent (site : Site) (slot : Int) : EventRec :=
  { EventType := .site, X := site.X, Y := site.Y, Radius := 0,
    SiteRef := some site, Node := none, index := slot }

/-- Modelled from the spec: `NewEventQueue` seeds the queue with one site
event per site (construction and `Reset`, tree.go lines 236, 244). -/
def NewEventQueue (sites : List Site) : List EventRec × List EventId :=
  (sites.enum.map (fun p => siteEvent p.2 (p.1 : Int)), List.range sites.length)

/-- Overwrite the slot token of one event (the queue stores the slot in
the event so removal can find it; -1 is the removed sentinel). -/
def setEventIndex (s : Voronoi) (i : EventId) (v : Int) : Voronoi :=
  match s.events.get? i with
  | none => s
  | some e => { s with events := s.events.set i { e with index := v } }

/-- Modelled from the spec: the id of a minimum-y queued event, the heap
minimum of `popMin` (the tie-break for equal y is left unspecified by the
spec; the model takes the first-queued such event). -/
def popMinId (s : Voronoi) : Option EventId :=
  s.EventQueue.foldl (fun acc i =>
    match acc with
    | none => some i
    | some j => if (getEvent s i).Y < (getEvent s j).Y then some i else some j) none

/-- Modelled from the spec: `heap.Pop` — extract a minimum-y event,
removing it from the queue and setting its slot token to the removed
sentinel. -/
def queuePop (s : Voronoi) : Option (EventId × Voronoi) :=
  match popMinId s with
  | none => none
  | some i => some (i, setEventIndex { s with EventQueue := s.EventQueue.erase i } i (-1))

/-- Modelled from the spec: `EventQueue.Remove` — in-place cancellation
of a still-queued event; the event's slot token becomes the removed
sentinel. -/
def queueRemove (s : Voronoi) (i : EventId) : Voronoi :=
  setEventIndex { s with EventQueue := s.EventQueue.erase i } i (-1)

/-- The record of the rightmost leaf of a subtree (Go `Node.PrevChildArc`,
tree.go lines 69-75, composed with the descent of `LastArc`). -/
def BTree.lastLeafData : BTree → NodeData
  | BTree.leaf d => d
  | BTree.node _ _ r => BTree.lastLeafData r

/-- The record of the leftmost leaf of a subtree (Go `Node.NextChildArc`,
tree.go lines 77-83). -/
def BTree.firstLeafData : BTree → NodeData
  | BTree.leaf d => d
  | BTree.node _ l _ => BTree.firstLeafData l

/-- The record at a path. -/
def dataAt (t : BTree) (p : TreePath) : Option NodeData :=
  (BTree.subtreeAt t p).map BTree.data

/-- The site stored at a leaf path. -/
def siteAtLeaf (t : BTree) (p : TreePath) : Option Site :=
  (dataAt t p).bind (fun d => d.Site)

/-- The node id at a path. -/
def idAt (t : BTree) (p : TreePath) : Option Nat :=
  (dataAt t p).map (fun d => d.id)

/-- Apply a record update at a path (mutation of a node reached by
child/parent pointers in Go). -/
def BTree.updateAt : BTree → TreePath → (NodeData → NodeData) → BTree
  | BTree.leaf d, [], f => BTree.leaf (f d)
  | BTree.node d l r, [], f => BTree.node (f d) l r
  | BTree.leaf d, _ :: _, _ => BTree.leaf d
  | BTree.node d l r, Dir.left :: p, f => BTree.node d (BTree.updateAt l p f) r
  | BTree.node d l r, Dir.right :: p, f => BTree.node d l (BTree.updateAt r p f)

/-- Modelled from the spec: the default site record used only to give
total Lean definitions where Go would dereference a pointer that is
never nil in reachable states. -/
def dummySite : Site :=
  { X := 0, Y := 0, ID := 0 }

/-- Modelled from the spec: `GetYByX` (missing from the given source
file; called at tree.go line 334) — the y of the parabola with the given
focus site at abscissa x, the sweep line being the directrix.  Integer
formula with Go truncating division; a site on the sweep line yields 0. -/
def GetYByX (site : Site) (x l : Int) : Int :=
  let den := 2 * (site.Y - l)
  if den = 0 then 0 else ((x - site.X) ^ 2 + site.Y ^ 2 - l ^ 2) / den

/-- Modelled from the spec: the breakpoint x between the arcs of two
sites at the current sweep position, by the standard parabola
intersection formula, rounded to an integer (quadratic root with integer
square root of the discriminant). -/
def breakpointX (s1 s2 : Site) (l : Int) : Int :=
  let d1 := s1.Y - l
  let d2 := s2.Y - l
  if d1 = d2 then (s1.X + s2.X) / 2
  else
    let a := d2 - d1
    let b := 2 * (s2.X * d1 - s1.X * d2)
    let c := d2 * (s1.X ^ 2 + s1.Y ^ 2 - l ^ 2) - d1 * (s2.X ^ 2 + s2.Y ^ 2 - l ^ 2)
    let disc := b ^ 2 - 4 * a * c
    (-b + Int.ofNat (isqrt disc.toNat)) / (2 * a)

/-- Modelled from the spec: `GetXOfInternalNode` (missing from the given
source file; called at tree.go line 288) — the x of the breakpoint
between the rightmost arc of the left subtree and the leftmost arc of
the right subtree at the current sweep position.  The model is total, so
the Go error/panic path of `findNodeAbove` cannot occur. -/
def GetXOfInternalNode (t : BTree) (l : Int) : Int :=
  match t with
  | BTree.leaf _ => 0
  | BTree.node _ lt rt =>
      breakpointX ((BTree.lastLeafData lt).Site.getD dummySite)
        ((BTree.firstLeafData rt).Site.getD dummySite) l

/-- Go `Voronoi.findNodeAbove` (tree.go lines 278-305): descend from the
root, branching on the breakpoint x of each internal node, to the leaf
arc above the incoming site. -/
def findNodeAbove (t : BTree) (site : Site) (l : Int) : TreePath :=
  match t with
  | BTree.leaf _ => []
  | BTree.node d lt rt =>
      if site.X < GetXOfInternalNode (BTree.node d lt rt) l then
        Dir.left :: findNodeAbove lt site l
      else
        Dir.right :: findNodeAbove rt site l

/-- Go `Voronoi.addCircleEvent` (tree.go lines 436-467): no-op when an
arc is nil, the circle is rejected, or the circle bottom lies above the
sweep line; otherwise push a circle event with trigger y at the circle
bottom and register it on the three arcs (left, middle, right), with the
middle arc recorded on the event. -/
def addCircleEvent (s : Voronoi) (a b c : Option TreePath) : Voronoi :=
  match a, b, c with
  | some pa, some pb, some pc =>
      match s.ParabolaTree with
      | none => s
      | some t =>
          match siteAtLeaf t pa, siteAtLeaf t pb, siteAtLeaf t pc, idAt t pb with
          | some s1, some s2, some s3, some nid =>
              match calcCircle s1 s2 s3 with
              | none => s
              | some (x, y, r) =>
                  if y + r < s.SweepLine then s
                  else
                    let eid := s.events.length
                    let ev : EventRec :=
                      { EventType := .circle, X := x, Y := y + r, Radius := r,
                        SiteRef := none, Node := some nid,
                        index := (s.EventQueue.length : Int) }
                    let t2 :=
                      ((t.updateAt pa (fun d => { d with LeftEvents := d.LeftEvents ++ [eid] })).updateAt
                          pb (fun d => { d with MiddleEvents := d.MiddleEvents ++ [eid] })).updateAt
                        pc (fun d => { d with RightEvents := d.RightEvents ++ [eid] })
                    { s with events := s.events ++ [ev],
                             EventQueue := s.EventQueue ++ [eid],
                             ParabolaTree := some t2 }
          | _, _, _, _ => s
  | _, _, _ => s

/-- Go `Voronoi.removeCircleEvent` (tree.go lines 533-560): cancel the
circle events in which the node is the middle arc — remove each still
queued one from the queue, then clear the node's middle list and the
previous arc's right list and next arc's left list. -/
def removeCircleEvent (s : Voronoi) (p : TreePath) : Voronoi :=
  match s.ParabolaTree with
  | none => s
  | some t =>
      match dataAt t p with
      | none => s
      | some d =>
          if d.MiddleEvents = [] then s
          else
            let s1 := d.MiddleEvents.foldl
              (fun st eid =>
                if (getEvent st eid).index ≤ -1 then st else queueRemove st eid) s
            let t1 := t.updateAt p (fun dd => { dd with MiddleEvents := [] })
            let t2 :=
              match prevArcPath t1 p with
              | some pp => t1.updateAt pp (fun dd => { dd with RightEvents := [] })
              | none => t1
            let t3 :=
              match nextArcPath t2 p with
              | some np => t2.updateAt np (fun dd => { dd with LeftEvents := [] })
              | none => t2
            { s1 with ParabolaTree := some t3 }

/-- Go `Voronoi.removeArc` (tree.go lines 508-530): splice the leaf's
sibling into the grandparent slot of the parent breakpoint, or make the
sibling the root.  Removing a root leaf would dereference a nil parent
in Go; the model leaves the tree unchanged there (unreachable from
circle-event handling, which always removes an arc with neighbours). -/
def removeArcT (t : BTree) (p : TreePath) : BTree :=
  match p.reverse with
  | [] => t
  | d :: qrev =>
      let q := qrev.reverse
      match BTree.subtreeAt t q with
      | some (BTree.node _ l r) =>
          BTree.replaceAt t q (if d = Dir.left then r else l)
      | _ => t

/-- The value Go computes for `node.PrevArc()` on a node already detached
by `removeArc` (tree.go line 571-573 run after line 488): the detached
node still points at its removed parent, whose own parent link leads into
the new tree, so the climb always stops one level up.  `q` is the path of
the removed parent (now holding the sibling) in the new tree, `d` the
side the removed node was on. -/
def ghostPrev (t2 : BTree) (q : TreePath) (d : Dir) : Option TreePath :=
  match d with
  | Dir.right =>
      match BTree.subtreeAt t2 q with
      | some sub => some (q ++ BTree.lastPath sub)
      | none => none
  | Dir.left =>
      match q.reverse with
      | [] => none
      | _ :: grev =>
          let q2 := grev.reverse ++ [Dir.left]
          match BTree.subtreeAt t2 q2 with
          | some sub => some (q2 ++ BTree.lastPath sub)
          | none => none

/-- Mirror image of `ghostPrev` for `node.NextArc()` on a detached node
(tree.go line 574-575). -/
def ghostNext (t2 : BTree) (q : TreePath) (d : Dir) : Option TreePath :=
  match d with
  | Dir.left =>
      match BTree.subtreeAt t2 q with
      | some sub => some (q ++ BTree.firstPath sub)
      | none => none
  | Dir.right =>
      match q.reverse with
      | [] => none
      | _ :: grev =>
          let q2 := grev.reverse ++ [Dir.right]
          match BTree.subtreeAt t2 q2 with
          | some sub => some (q2 ++ BTree.firstPath sub)
          | none => none

/-- Remove an event from all three participation lists of one node (Go
`Node.RemoveEvent`, tree.go lines 181-185). -/
def nodeRemoveEvent (d : NodeData) (e : EventId) : NodeData :=
  { d with LeftEvents := CircleEvents.RemoveEvent d.LeftEvents e,
           MiddleEvents := CircleEvents.RemoveEvent d.MiddleEvents e,
           RightEvents := CircleEvents.RemoveEvent d.RightEvents e }

/-- Go `Voronoi.removeAllCircleEvents` (tree.go lines 563-596): remove
every circle event the (already detached) node participates in, in any
role, from the queue and from the participation lists of the four nearby
neighbour arcs.  `d` is the detached node's record and `p` its old path;
the neighbours are computed by the ghost traversals.  A nil neighbour
makes Go fault on `n.RemoveEvent`; the model skips it (unreachable for
events created with three live arcs). -/
def removeAllCircleEvents (s : Voronoi) (d : NodeData) (p : TreePath) : Voronoi :=
  match s.ParabolaTree, p.reverse with
  | some t2, dir :: qrev =>
      let q := qrev.reverse
      let combined := d.MiddleEvents ++ d.LeftEvents ++ d.RightEvents
      if combined = [] then s
      else
        let gp := ghostPrev t2 q dir
        let gn := ghostNext t2 q dir
        let gpp := gp.bind (prevArcPath t2)
        let gnn := gn.bind (nextArcPath t2)
        let neighbours := [gpp, gp, gn, gnn]
        combined.foldl
          (fun st eid =>
            if (getEvent st eid).index ≤ -1 then st
            else
              let st1 := queueRemove st eid
              neighbours.foldl
                (fun st2 n =>
                  match n with
                  | none => st2
                  | some np =>
                      match st2.ParabolaTree with
                      | none => st2
                      | some tt =>
                          let tt2 := tt.updateAt np (fun dd => nodeRemoveEvent dd eid)
                          { st2 with ParabolaTree := some tt2 })
                st1)
          s
  | _, _ => s

/-- Go lines 338-375 of `handleSiteEvent`: the subtree replacing the
split arc.  The split leaf becomes the internal root of the new subtree,
keeping its id (pointer identity) and edge lists but losing its site and
event lists; the right copy takes the original's `LeftEvents` and
`RightEdges`, the left copy the original's `RightEvents` and
`LeftEdges`; the four half-edges of the two `NewEdge` pairs are appended
to the respective lists (left copy right side `e1`, new arc left `e2`
and right `e3`, right copy left side `e4`).  Fresh ids are allocated in
Go allocation order. -/
def splitSubtree (old : NodeData) (newSite : Site) (base : Nat)
    (e1 e2 e3 e4 : EdgeId) : BTree :=
  let oldRight : NodeData :=
    { id := base, Site := old.Site, LeftEvents := old.LeftEvents,
      MiddleEvents := [], RightEvents := [], LeftEdges := [e4],
      RightEdges := old.RightEdges }
  let inner : NodeData :=
    { id := base + 1, Site := none, LeftEvents := [], MiddleEvents := [],
      RightEvents := [], LeftEdges := [], RightEdges := [] }
  let newArc : NodeData :=
    { id := base + 2, Site := some newSite, LeftEvents := [],
      MiddleEvents := [], RightEvents := [], LeftEdges := [e2],
      RightEdges := [e3] }
  let oldLeft : NodeData :=
    { id := base + 3, Site := old.Site, LeftEvents := [],
      MiddleEvents := [], RightEvents := old.RightEvents,
      LeftEdges := old.LeftEdges, RightEdges := [e1] }
  let top : NodeData :=
    { old with
      Site := none, LeftEvents := [], MiddleEvents := [],
      RightEvents := [] }
  BTree.node top (BTree.node inner (BTree.leaf oldLeft) (BTree.leaf newArc))
    (BTree.leaf oldRight)

/-- Go `Voronoi.handleSiteEvent` (tree.go lines 307-386): create the
site's face; an empty beach line gains the site as root arc; otherwise
find the arc above, cancel its middle-role circle events, create the
breakpoint vertex and the two twin pairs, split the arc, and probe the
two new neighbour triples for circle events. -/
def handleSiteEvent (s : Voronoi) (e : EventRec) : Voronoi :=
  let site := e.SiteRef.getD dummySite
  let s0 := { s with dcel := s.dcel.newFace site.ID }
  match s0.ParabolaTree with
  | none =>
      { s0 with ParabolaTree := some (BTree.leaf (mkArc s0.nextNodeId site)),
                nextNodeId := s0.nextNodeId + 1 }
  | some t0 =>
      let p := findNodeAbove t0 site s0.SweepLine
      let s1 := removeCircleEvent s0 p
      match s1.ParabolaTree with
      | none => s1
      | some t =>
          match dataAt t p with
          | none => s1
          | some old =>
              let y := GetYByX (old.Site.getD dummySite) site.X s1.SweepLine
              let v := (site.X, y)
              let dcel1 := s1.dcel.newVertex v
              let fOld := (old.Site.getD dummySite).ID
              let (dcel2, e1, e2) := dcel1.newEdge fOld site.ID v
              let (dcel3, e3, e4) := dcel2.newEdge site.ID fOld v
              let t1 := BTree.replaceAt t p
                (splitSubtree old site s1.nextNodeId e1 e2 e3 e4)
              let s2 := { s1 with dcel := dcel3, ParabolaTree := some t1,
                                  nextNodeId := s1.nextNodeId + 4 }
              let newArcPath := p ++ [Dir.left, Dir.right]
              let prevP := prevArcPath t1 newArcPath
              let prevPrev := prevP.bind (prevArcPath t1)
              let s3 := addCircleEvent s2 prevPrev prevP (some newArcPath)
              match s3.ParabolaTree with
              | none => s3
              | some t3 =>
                  let nextP := nextArcPath t3 newArcPath
                  let nextNext := nextP.bind (nextArcPath t3)
                  addCircleEvent s3 (some newArcPath) nextP nextNext

/-- The last step of `handleCircleEvent` (tree.go lines 498-505): close
the former neighbours' facing edge lists at the vertex and connect the
two neighbour faces with a new twin pair, registered on both arcs.
Where Go would dereference a nil neighbour pointer the model returns the
state unchanged. -/
def circleEventTail3 (s4 : Voronoi) (v : Int × Int) (prevId nextId : Option Nat) : Voronoi :=
  match s4.ParabolaTree, prevId, nextId with
  | some t4, some pid, some nxid =>
      match BTree.findLeafPath t4 pid, BTree.findLeafPath t4 nxid with
      | some pp, some np =>
          match dataAt t4 pp, dataAt t4 np with
          | some dp, some dn =>
              let dcel2 := (s4.dcel.CloseTwins dp.RightEdges v).CloseTwins
                dn.LeftEdges v
              let fp := (dp.Site.getD dummySite).ID
              let fn := (dn.Site.getD dummySite).ID
              let (dcel3, ne1, ne2) := dcel2.newEdge fp fn v
              let t5 := (t4.updateAt pp
                (fun dd => { dd with RightEdges := dd.RightEdges ++ [ne1] })).updateAt
                np (fun dd => { dd with LeftEdges := dd.LeftEdges ++ [ne2] })
              { s4 with dcel := dcel3, ParabolaTree := some t5 }
          | _, _ => s4
      | _, _ => s4
  | _, _, _ => s4

/-- The second neighbour-triple probe of `handleCircleEvent` (tree.go
lines 495-496) followed by `circleEventTail3`. -/
def circleEventTail2 (s3 : Voronoi) (v : Int × Int) (prevId nextId : Option Nat) : Voronoi :=
  match s3.ParabolaTree with
  | none => s3
  | some t3 =>
      let prevP3 := prevId.bind (BTree.findLeafPath t3)
      let nextP3 := nextId.bind (BTree.findLeafPath t3)
      let nextNext := nextP3.bind (nextArcPath t3)
      circleEventTail3 (addCircleEvent s3 prevP3 nextP3 nextNext) v prevId nextId

/-- The half of `handleCircleEvent` after arc removal and event
invalidation (tree.go lines 492-505): probe the two new neighbour
triples, then close the former neighbours' facing edge lists and connect
the neighbour faces with a new twin pair at the vertex.  Factored out of
`handleCircleEvent` over the state after `removeAllCircleEvents`. -/
def circleEventTail (s2 : Voronoi) (v : Int × Int) (prevId nextId : Option Nat) : Voronoi :=
  match s2.ParabolaTree with
  | none => s2
  | some t2 =>
      let prevP := prevId.bind (BTree.findLeafPath t2)
      let prevPrev := prevP.bind (prevArcPath t2)
      let nextP := nextId.bind (BTree.findLeafPath t2)
      circleEventTail2 (addCircleEvent s2 prevPrev prevP nextP) v prevId nextId

/-- Go `Voronoi.handleCircleEvent` (tree.go lines 469-506): create the
circumcenter vertex, close the vanishing arc's two edge lists, remove
the arc, invalidate every circle event it participated in, probe the two
new neighbour triples, and connect the former neighbours with a new twin
pair at the vertex.  Where Go would dereference a nil pointer (dangling
middle-arc id, removed root leaf, or missing neighbour at lines 498-501)
the model stops with the state built so far. -/
def handleCircleEvent (s : Voronoi) (e : EventRec) : Voronoi :=
  match s.ParabolaTree, e.Node with
  | some t, some nid =>
      match BTree.findLeafPath t nid with
      | none => s
      | some p =>
          match dataAt t p with
          | none => s
          | some d =>
              let v := (e.X, e.Y - e.Radius)
              let dcel1 := ((s.dcel.newVertex v).CloseTwins d.LeftEdges v).CloseTwins
                d.RightEdges v
              let prevId := (prevArcPath t p).bind (idAt t)
              let nextId := (nextArcPath t p).bind (idAt t)
              let t1 := removeArcT t p
              let s1 := { s with dcel := dcel1, ParabolaTree := some t1 }
              circleEventTail (removeAllCircleEvents s1 d p) v prevId nextId
  | _, _ => s

/-- Go `Voronoi.HandleNextEvent` (tree.go lines 250-268): pop the minimum
event; silently discard it when its trigger y is above the sweep line;
otherwise advance the sweep line to the trigger y and dispatch on the
event kind. -/
def Voronoi.HandleNextEvent (s : Voronoi) : Voronoi :=
  match queuePop s with
  | none => s
  | some (i, s1) =>
      let e := getEvent s1 i
      if e.Y < s1.SweepLine then s1
      else
        let s2 := { s1 with SweepLine := e.Y }
        match e.EventType with
        | EType.site => handleSiteEvent s2 e
        | EType.circle => handleCircleEvent s2 e

/-- Go `Voronoi.Reset` (tree.go lines 243-248): reseed the event queue
from the stored site list and clear tree, sweep line and graph. -/
def Voronoi.Reset (s : Voronoi) : Voronoi :=
  { s with events := (NewEventQueue s.Sites).1,
           EventQueue := (NewEventQueue s.Sites).2,
           ParabolaTree := none,
           SweepLine := 0,
           dcel := DCEL.empty,
           nextNodeId := 0 }

/-- The event loop of Go `Voronoi.Generate` (tree.go lines 273-275) with
explicit fuel standing in for the unbounded Go loop: step while events
remain and fuel lasts. -/
def Voronoi.run : Nat → Voronoi → Voronoi
  | 0, s => s
  | n + 1, s => if s.EventQueue = [] then s else Voronoi.run n s.HandleNextEvent

/-- Go `Voronoi.Generate` (tree.go lines 270-276): `Reset`, then handle
events until the queue is empty (with fuel). -/
def Voronoi.Generate (fuel : Nat) (s : Voronoi) : Voronoi :=
  Voronoi.run fuel s.Reset

theorem foldl_preserves {β : Type} (P : Voronoi → Prop) (f : Voronoi → β → Voronoi)
    (hf : ∀ st b, P st → P (f st b)) :
    ∀ (l : List β) (st : Voronoi), P st → P (List.foldl f st l) := by
  intro l
  induction l with
  | nil => intro st h; exact h
  | cons b bs ih => intro st h; exact ih _ (hf st b h)

theorem setEventIndex_fields (s : Voronoi) (i : EventId) (v : Int) :
    (setEventIndex s i v).SweepLine = s.SweepLine ∧
    (setEventIndex s i v).ParabolaTree = s.ParabolaTree ∧
    (setEventIndex s i v).dcel = s.dcel ∧
    (setEventIndex s i v).Sites = s.Sites ∧
    (setEventIndex s i v).EventQueue = s.EventQueue := by
  unfold setEventIndex
  cases s.events.get? i <;> exact ⟨rfl, rfl, rfl, rfl, rfl⟩

theorem queueRemove_fields (s : Voronoi) (i : EventId) :
    (queueRemove s i).SweepLine = s.SweepLine ∧
    (queueRemove s i).ParabolaTree = s.ParabolaTree ∧
    (queueRemove s i).dcel = s.dcel ∧
    (queueRemove s i).Sites = s.Sites := by
  unfold queueRemove
  obtain ⟨h1, h2, h3, h4, _⟩ :=
    setEventIndex_fields { s with EventQueue := s.EventQueue.erase i } i (-1)
  exact ⟨h1, h2, h3, h4⟩

theorem queuePop_fields (s : Voronoi) (i : EventId) (s1 : Voronoi)
    (h : queuePop s = some (i, s1)) :
    s1.SweepLine = s.SweepLine ∧
    s1.ParabolaTree = s.ParabolaTree ∧
    s1.dcel = s.dcel ∧
    s1.Sites = s.Sites := by
  unfold queuePop at h
  cases hm : popMinId s with
  | none => rw [hm] at h; cases h
  | some j =>
      rw [hm] at h
      injection h with h'
      have hj : j = i := congrArg Prod.fst h'
      have hs : setEventIndex { s with EventQueue := s.EventQueue.erase j } j (-1) = s1 :=
        congrArg Prod.snd h'
      subst hj
      rw [← hs]
      obtain ⟨h1, h2, h3, h4, _⟩ :=
        setEventIndex_fields { s with EventQueue := s.EventQueue.erase j } j (-1)
      exact ⟨h1, h2, h3, h4⟩

theorem addCircleEvent_SweepLine (s : Voronoi) (a b c : Option TreePath) :
    (addCircleEvent s a b c).SweepLine = s.SweepLine := by
  unfold addCircleEvent
  repeat' split
  all_goals rfl

theorem removeCircleEvent_SweepLine (s : Voronoi) (p : TreePath) :
    (removeCircleEvent s p).SweepLine = s.SweepLine := by
  unfold removeCircleEvent
  repeat' split
  any_goals rfl
  show (List.foldl _ s _).SweepLine = s.SweepLine
  apply foldl_preserves (fun st => st.SweepLine = s.SweepLine)
  · intro st b h
    dsimp only
    split
    · exact h
    · rw [(queueRemove_fields st b).1]; exact h
  · rfl

theorem removeAllCircleEvents_SweepLine (s : Voronoi) (d : NodeData) (p : TreePath) :
    (removeAllCircleEvents s d p).SweepLine = s.SweepLine := by
  unfold removeAllCircleEvents
  repeat' split
  any_goals rfl
  dsimp only
  split
  · rfl
  apply foldl_preserves (fun st => st.SweepLine = s.SweepLine)
  · intro st b h
    dsimp only
    split
    · exact h
    · apply foldl_preserves (fun st2 => st2.SweepLine = s.SweepLine)
      · intro st2 n h2
        dsimp only
        repeat' split
        any_goals exact h2
      · rw [(queueRemove_fields st b).1]; exact h
  · rfl

theorem handleSiteEvent_SweepLine (s : Voronoi) (e : EventRec) :
    (handleSiteEvent s e).SweepLine = s.SweepLine := by
  unfold handleSiteEvent
  dsimp only
  split
  · rfl
  rename_i t0 heq
  have h1 : (removeCircleEvent { s with dcel := s.dcel.newFace ((e.SiteRef.getD dummySite).ID) }
      (findNodeAbove t0 (e.SiteRef.getD dummySite) s.SweepLine)).SweepLine = s.SweepLine :=
    removeCircleEvent_SweepLine _ _
  generalize hg : removeCircleEvent { s with dcel := s.dcel.newFace ((e.SiteRef.getD dummySite).ID) }
      (findNodeAbove t0 (e.SiteRef.getD dummySite) s.SweepLine) = s1 at h1 ⊢
  split
  · exact h1
  split
  · exact h1
  repeat' split
  all_goals rw [addCircleEvent_SweepLine]
  all_goals try rw [addCircleEvent_SweepLine]
  all_goals exact h1

theorem circleEventTail3_SweepLine (s4 : Voronoi) (v : Int × Int)
    (prevId nextId : Option Nat) :
    (circleEventTail3 s4 v prevId nextId).SweepLine = s4.SweepLine := by
  unfold circleEventTail3
  repeat' split
  all_goals rfl

theorem circleEventTail2_SweepLine (s3 : Voronoi) (v : Int × Int)
    (prevId nextId : Option Nat) :
    (circleEventTail2 s3 v prevId nextId).SweepLine = s3.SweepLine := by
  unfold circleEventTail2
  split
  · rfl
  · rw [circleEventTail3_SweepLine, addCircleEvent_SweepLine]

theorem circleEventTail_SweepLine (s2 : Voronoi) (v : Int × Int)
    (prevId nextId : Option Nat) :
    (circleEventTail s2 v prevId nextId).SweepLine = s2.SweepLine := by
  unfold circleEventTail
  split
  · rfl
  · rw [circleEventTail2_SweepLine, addCircleEvent_SweepLine]

theorem handleCircleEvent_SweepLine (s : Voronoi) (e : EventRec) :
    (handleCircleEvent s e).SweepLine = s.SweepLine := by
  unfold handleCircleEvent
  repeat' split
  all_goals try rfl
  all_goals rw [circleEventTail_SweepLine, removeAllCircleEvents_SweepLine]

theorem handleNextEvent_sweep_mono (s : Voronoi) :
    s.SweepLine ≤ s.HandleNextEvent.SweepLine := by
  unfold Voronoi.HandleNextEvent
  cases hq : queuePop s with
  | none => exact le_refl _
  | some pr =>
      obtain ⟨i, s1⟩ := pr
      obtain ⟨hsw, -, -, -⟩ := queuePop_fields s i s1 hq
      dsimp only
      by_cases hy : (getEvent s1 i).Y < s1.SweepLine
      · rw [if_pos hy]
        omega
      · rw [if_neg hy]
        push_neg at hy
        cases he : (getEvent s1 i).EventType
        · dsimp only
          rw [handleSiteEvent_SweepLine]
          dsimp only
          omega
        · dsimp only
          rw [handleCircleEvent_SweepLine]
          dsimp only
          omega

/-- C2: across every single-event step of the controller the recorded
sweep position never decreases: `HandleNextEvent` either leaves
`SweepLine` unchanged (empty queue or stale event) or raises it to the
popped event's trigger y, and consequently the sweep position is
monotonically non-decreasing along any run of the event loop. -/
theorem c2_sweepLine_monotone (s : Voronoi) :
    s.SweepLine ≤ s.HandleNextEvent.SweepLine ∧
      ∀ n : Nat, s.SweepLine ≤ (Voronoi.run n s).SweepLine := by
  refine ⟨handleNextEvent_sweep_mono s, ?_⟩
  intro n
  induction n generalizing s with
  | zero => exact le_refl _
  | succ n ih =>
      rw [Voronoi.run]
      by_cases hq : s.EventQueue = []
      · rw [if_pos hq]
      · rw [if_neg hq]
        exact le_trans (handleNextEvent_sweep_mono s) (ih s.HandleNextEvent)

/-- C6: when the popped event's trigger y is strictly below the current
sweep position, `HandleNextEvent` discards it silently: the resulting
state is exactly the popped state, whose sweep position, beach-line tree
and planar graph all equal those before the step; no handler runs and no
error is reported (the step function is total). -/
theorem c6_stale_event_discarded (s : Voronoi) (i : EventId) (s1 : Voronoi)
    (hq : queuePop s = some (i, s1))
    (hy : (getEvent s1 i).Y < s1.SweepLine) :
    s.HandleNextEvent = s1 ∧
      s1.SweepLine = s.SweepLine ∧
      s1.ParabolaTree = s.ParabolaTree ∧
      s1.dcel = s.dcel := by
  obtain ⟨h1, h2, h3, -⟩ := queuePop_fields s i s1 hq
  refine ⟨?_, h1, h2, h3⟩
  unfold Voronoi.HandleNextEvent
  rw [hq]
  dsimp only
  rw [if_pos hy]

/-- A concrete state holding one queued circle event whose trigger y (1)
lies above the sweep position (5). -/
def staleState : Voronoi :=
  { BoundsMin := (0, 0), BoundsMax := (10, 10), Sites := [],
    events := [{ EventType := EType.circle, X := 3, Y := 1, Radius := 1,
                 SiteRef := none, Node := some 0, index := 0 }],
    EventQueue := [0],
    ParabolaTree := some (BTree.leaf (mkArc 0 { X := 3, Y := 1, ID := 7 })),
    SweepLine := 5, dcel := DCEL.empty, nextNodeId := 1 }

/-- The state after popping the stale event of `staleState`. -/
def staleState1 : Voronoi :=
  { staleState with
    events := [{ EventType := EType.circle, X := 3, Y := 1, Radius := 1,
                 SiteRef := none, Node := some 0, index := -1 }],
    EventQueue := [] }

/-- Witness for C6 at `staleState`: the stale circle event is popped and
dropped with sweep line, tree and graph unchanged. -/
theorem c6_stale_event_discarded_witness :
    queuePop staleState = some (0, staleState1) ∧
      (getEvent staleState1 0).Y < staleState1.SweepLine ∧
      (Voronoi.HandleNextEvent staleState = staleState1 ∧
        staleState1.SweepLine = staleState.SweepLine ∧
        staleState1.ParabolaTree = staleState.ParabolaTree ∧
        staleState1.dcel = staleState.dcel) := by
  refine ⟨by decide, by decide, ?_⟩
  exact c6_stale_event_discarded staleState 0 staleState1 (by decide) (by decide)

theorem calcCircle_eval_concrete :
    calcCircle { X := 0, Y := 0, ID := 0 } { X := 1, Y := -1, ID := 1 }
      { X := 2, Y := -1, ID := 2 } = some (2, 1, 2) := by
  unfold calcCircle
  norm_num
  unfold ratTrunc ratSqrtRound
  norm_num
  rw [Rat.floor_def']
  norm_num
  have h10 : Int.toNat 10 = 10 := by omega
  rw [h10, show isqrt 10 = 3 from by decide]
  norm_num

/-- C4: `addCircleEvent` is a no-op when any of the three arcs is nil,
when `calcCircle` rejects the triple, or when the circle bottom y + r is
smaller than the sweep position; otherwise it pushes exactly one circle
event whose trigger y equals the circle bottom and registers it as a
left participation on the first arc, middle on the second and right on
the third, recording the middle arc on the event. -/
theorem c4_addCircleEvent_cases (s : Voronoi) (t : BTree) (pa pb pc : TreePath)
    (sa sb sc : Site) (nid : Nat)
    (ht : s.ParabolaTree = some t)
    (ha : siteAtLeaf t pa = some sa)
    (hb : siteAtLeaf t pb = some sb)
    (hc : siteAtLeaf t pc = some sc)
    (hid : idAt t pb = some nid) :
    (∀ b c, addCircleEvent s none b c = s) ∧
    (∀ a c, addCircleEvent s a none c = s) ∧
    (∀ a b, addCircleEvent s a b none = s) ∧
    (calcCircle sa sb sc = none →
      addCircleEvent s (some pa) (some pb) (some pc) = s) ∧
    (∀ x y r, calcCircle sa sb sc = some (x, y, r) →
      (y + r < s.SweepLine → addCircleEvent s (some pa) (some pb) (some pc) = s) ∧
      (¬ y + r < s.SweepLine →
        addCircleEvent s (some pa) (some pb) (some pc) =
          { s with
            events := s.events ++
              [{ EventType := EType.circle, X := x, Y := y + r, Radius := r,
                 SiteRef := none, Node := some nid,
                 index := (s.EventQueue.length : Int) }],
            EventQueue := s.EventQueue ++ [s.events.length],
            ParabolaTree := some
              (((t.updateAt pa fun d =>
                    { d with LeftEvents := d.LeftEvents ++ [s.events.length] }).updateAt
                  pb fun d =>
                    { d with MiddleEvents := d.MiddleEvents ++ [s.events.length] }).updateAt
                pc fun d =>
                  { d with RightEvents := d.RightEvents ++ [s.events.length] }) })) := by
  refine ⟨?_, ?_, ?_, ?_, ?_⟩
  · intro b c; cases b <;> cases c <;> rfl
  · intro a c; cases a <;> cases c <;> rfl
  · intro a b; cases a <;> cases b <;> rfl
  · intro hcal
    unfold addCircleEvent
    rw [ht]
    dsimp only
    rw [ha, hb, hc, hid]
    dsimp only
    rw [hcal]
  · intro x y r hcal
    constructor
    · intro hlt
      unfold addCircleEvent
      rw [ht]
      dsimp only
      rw [ha, hb, hc, hid]
      dsimp only
      rw [hcal]
      dsimp only
      rw [if_pos hlt]
    · intro hge
      unfold addCircleEvent
      rw [ht]
      dsimp only
      rw [ha, hb, hc, hid]
      dsimp only
      rw [hcal]
      dsimp only
      rw [if_neg hge]

/-- A concrete three-arc beach line for exercising `addCircleEvent`. -/
def c4Tree : BTree :=
  BTree.node (mkArc 4 dummySite)
    (BTree.node (mkArc 3 dummySite)
      (BTree.leaf (mkArc 0 { X := 0, Y := 0, ID := 0 }))
      (BTree.leaf (mkArc 1 { X := 1, Y := -1, ID := 1 })))
    (BTree.leaf (mkArc 2 { X := 2, Y := -1, ID := 2 }))

/-- A concrete engine state over `c4Tree` with an empty queue. -/
def c4State : Voronoi :=
  { BoundsMin := (0, 0), BoundsMax := (10, 10), Sites := [],
    events := [], EventQueue := [], ParabolaTree := some c4Tree,
    SweepLine := 0, dcel := DCEL.empty, nextNodeId := 5 }

/-- Witness for C4 at `c4State`: the triple of its three arcs yields the
circle (2, 1, 2), whose bottom y 3 is below no sweep line of 0, so
exactly one circle event with trigger y 3 is queued. -/
theorem c4_addCircleEvent_cases_witness :
    (c4State.ParabolaTree = some c4Tree ∧
      siteAtLeaf c4Tree [Dir.left, Dir.left] = some { X := 0, Y := 0, ID := 0 } ∧
      siteAtLeaf c4Tree [Dir.left, Dir.right] = some { X := 1, Y := -1, ID := 1 } ∧
      siteAtLeaf c4Tree [Dir.right] = some { X := 2, Y := -1, ID := 2 } ∧
      idAt c4Tree [Dir.left, Dir.right] = some 1) ∧
    (addCircleEvent c4State (some [Dir.left, Dir.left]) (some [Dir.left, Dir.right])
        (some [Dir.right])).EventQueue = [0] ∧
    (addCircleEvent c4State (some [Dir.left, Dir.left]) (some [Dir.left, Dir.right])
        (some [Dir.right])).events =
      [{ EventType := EType.circle, X := 2, Y := 3, Radius := 2,
         SiteRef := none, Node := some 1, index := 0 }] := by
  have h := c4_addCircleEvent_cases c4State c4Tree
    [Dir.left, Dir.left] [Dir.left, Dir.right] [Dir.right]
    { X := 0, Y := 0, ID := 0 } { X := 1, Y := -1, ID := 1 }
    { X := 2, Y := -1, ID := 2 } 1
    (by decide) (by decide) (by decide) (by decide) (by decide)
  have h2 := (h.2.2.2.2 2 1 2 calcCircle_eval_concrete).2 (by decide)
  refine ⟨⟨by decide, by decide, by decide, by decide, by decide⟩, ?_, ?_⟩
  · rw [h2]; decide
  · rw [h2]; decide

/-- C10: `PrevArc` of the leftmost leaf and `NextArc` of the rightmost
leaf of any beach-line tree are nil — in particular both are nil on a
single root leaf — and `addCircleEvent` absorbs a nil arc in any of its
three positions without touching the state. -/
theorem c10_boundary_traversals (t : BTree) (s : Voronoi) (a b c : Option TreePath) :
    prevArcPath t t.firstPath = none ∧
    nextArcPath t t.lastPath = none ∧
    (∀ d : NodeData,
      prevArcPath (BTree.leaf d) [] = none ∧ nextArcPath (BTree.leaf d) [] = none) ∧
    addCircleEvent s none b c = s ∧
    addCircleEvent s a none c = s ∧
    addCircleEvent s a b none = s := by
  refine ⟨prevArcPath_firstPath t, nextArcPath_lastPath t,
    fun d => ⟨rfl, rfl⟩, ?_, ?_, ?_⟩
  · cases b <;> cases c <;> rfl
  · cases a <;> cases c <;> rfl
  · cases a <;> cases b <;> rfl

/-- A concrete arc record with nonempty participation lists, for the C3
counterexample. -/
def c3Old : NodeData :=
  { id := 0, Site := some { X := 5, Y := 0, ID := 0 }, LeftEvents := [7],
    MiddleEvents := [], RightEvents := [9], LeftEdges := [11],
    RightEdges := [12] }

/-- C3 counterexample: in the split subtree built by `handleSiteEvent`
(tree.go lines 338-367) the left copy does not inherit the original
arc's `LeftEvents` and the right copy does not inherit its
`RightEvents` — the two event lists go to the opposite copies. -/
theorem c3_counterexample :
    (dataAt (splitSubtree c3Old { X := 2, Y := 4, ID := 1 } 1 20 21 22 23)
        [Dir.left, Dir.left]).map NodeData.LeftEvents ≠ some c3Old.LeftEvents ∧
    (dataAt (splitSubtree c3Old { X := 2, Y := 4, ID := 1 } 1 20 21 22 23)
        [Dir.right]).map NodeData.RightEvents ≠ some c3Old.RightEvents := by
  decide

/-- C3 (amended): in the split subtree, the left copy inherits the
original arc's left-incident edge list but its `RightEvents`
participation list, and the right copy inherits the original's
right-incident edge list but its `LeftEvents` participation list; the
left copy's `LeftEvents` and the right copy's `RightEvents` start
empty.  (The two edge pairs created by the split are appended on the
inner sides only: `e1` on the left copy's right side and `e4` on the
right copy's left side.) -/
theorem c3_split_inheritance (old : NodeData) (newSite : Site) (base : Nat)
    (e1 e2 e3 e4 : EdgeId) :
    (dataAt (splitSubtree old newSite base e1 e2 e3 e4) [Dir.left, Dir.left] =
      some { id := base + 3, Site := old.Site, LeftEvents := [],
             MiddleEvents := [], RightEvents := old.RightEvents,
             LeftEdges := old.LeftEdges, RightEdges := [e1] }) ∧
    (dataAt (splitSubtree old newSite base e1 e2 e3 e4) [Dir.right] =
      some { id := base, Site := old.Site, LeftEvents := old.LeftEvents,
             MiddleEvents := [], RightEvents := [], LeftEdges := [e4],
             RightEdges := old.RightEdges }) := by
  exact ⟨rfl, rfl⟩

theorem counts_replaceAt (s : BTree) :
    ∀ (t : BTree) (p : TreePath) (u : BTree), BTree.subtreeAt t p = some u →
      (BTree.replaceAt t p s).leafCount + u.leafCount = t.leafCount + s.leafCount ∧
      (BTree.replaceAt t p s).internalCount + u.internalCount =
        t.internalCount + s.internalCount := by
  intro t
  induction t with
  | leaf d =>
      intro p u h
      cases p with
      | nil =>
          injection h with h
          subst h
          simp [BTree.replaceAt]
          omega
      | cons dir rest => simp [BTree.subtreeAt] at h
  | node d l r ihl ihr =>
      intro p u h
      cases p with
      | nil =>
          injection h with h
          subst h
          simp [BTree.replaceAt]
          omega
      | cons dir rest =>
          cases dir with
          | left =>
              simp only [BTree.subtreeAt] at h
              obtain ⟨h1, h2⟩ := ihl rest u h
              simp only [BTree.replaceAt, BTree.leafCount, BTree.internalCount]
              omega
          | right =>
              simp only [BTree.subtreeAt] at h
              obtain ⟨h1, h2⟩ := ihr rest u h
              simp only [BTree.replaceAt, BTree.leafCount, BTree.internalCount]
              omega

/-- C7 (amended): splitting the arc leaf above a site event replaces one
leaf with a subtree of three leaves and two internal nodes (the split
leaf record itself turned internal plus one fresh internal node), so the
beach line gains exactly two leaves and two internal nodes per site
event handled against a non-empty beach line — not one and one; with no
circle events the leaf count after n site events is 2n - 1, not n. -/
theorem c7_split_counts (t : BTree) (p : TreePath) (old : NodeData)
    (newSite : Site) (base : Nat) (e1 e2 e3 e4 : EdgeId)
    (h : BTree.subtreeAt t p = some (BTree.leaf old)) :
    (BTree.replaceAt t p (splitSubtree old newSite base e1 e2 e3 e4)).leafCount =
      t.leafCount + 2 ∧
    (BTree.replaceAt t p (splitSubtree old newSite base e1 e2 e3 e4)).internalCount =
      t.internalCount + 2 := by
  obtain ⟨h1, h2⟩ := counts_replaceAt (splitSubtree old newSite base e1 e2 e3 e4) t p
    (BTree.leaf old) h
  have hs1 : (splitSubtree old newSite base e1 e2 e3 e4).leafCount = 3 := rfl
  have hs2 : (splitSubtree old newSite base e1 e2 e3 e4).internalCount = 2 := rfl
  rw [hs1] at h1
  rw [hs2] at h2
  constructor
  · have : (BTree.leaf old).leafCount = 1 := rfl
    omega
  · have : (BTree.leaf old).internalCount = 0 := rfl
    omega

/-- Witness for C7 at a concrete split: splitting the only leaf of a
one-arc beach line yields three leaves and two internal nodes. -/
theorem c7_split_counts_witness :
    BTree.subtreeAt (BTree.leaf c3Old) [] = some (BTree.leaf c3Old) ∧
    (BTree.replaceAt (BTree.leaf c3Old) []
        (splitSubtree c3Old { X := 2, Y := 4, ID := 1 } 1 20 21 22 23)).leafCount =
      (BTree.leaf c3Old).leafCount + 2 ∧
    (BTree.replaceAt (BTree.leaf c3Old) []
        (splitSubtree c3Old { X := 2, Y := 4, ID := 1 } 1 20 21 22 23)).internalCount =
      (BTree.leaf c3Old).internalCount + 2 := by
  refine ⟨rfl, ?_, ?_⟩
  · exact (c7_split_counts (BTree.leaf c3Old) [] c3Old
      { X := 2, Y := 4, ID := 1 } 1 20 21 22 23 rfl).1
  · exact (c7_split_counts (BTree.leaf c3Old) [] c3Old
      { X := 2, Y := 4, ID := 1 } 1 20 21 22 23 rfl).2

/-- A two-site instance for the C7 counterexample. -/
def c7Voronoi : Voronoi :=
  { BoundsMin := (0, 0), BoundsMax := (10, 10),
    Sites := [{ X := 5, Y := 0, ID := 0 }, { X := 2, Y := 4, ID := 1 }],
    events := [], EventQueue := [], ParabolaTree := none, SweepLine := 0,
    dcel := DCEL.empty, nextNodeId := 0 }

/-- C7 counterexample: after processing the two site events of
`c7Voronoi` the beach-line tree has three leaves, not two, so the leaf
count does not equal the number of site events processed. -/
theorem c7_counterexample :
    (Voronoi.Generate 2 c7Voronoi).EventQueue = [] ∧
    ((Voronoi.Generate 2 c7Voronoi).ParabolaTree.map BTree.leafCount) = some 3 ∧
    some 3 ≠ some (c7Voronoi.Sites.length) := by
  refine ⟨by decide, by decide, by decide⟩

/-- A state whose queue holds one live circle event (trigger y 8, sweep
position 5) whose middle arc (id 1 in `c4Tree`) does not list the event
in its `MiddleEvents`. -/
def c1State : Voronoi :=
  { BoundsMin := (0, 0), BoundsMax := (10, 10), Sites := [],
    events := [{ EventType := EType.circle, X := 5, Y := 8, Radius := 3,
                 SiteRef := none, Node := some 1, index := 0 }],
    EventQueue := [0], ParabolaTree := some c4Tree, SweepLine := 5,
    dcel := DCEL.empty, nextNodeId := 5 }

/-- C1 counterexample: at `c1State` the popped circle event is absent
from its middle arc's `MiddleEvents`, yet the step loop honors it
anyway — a vertex is created and the middle arc is removed from the
beach line — instead of discarding it without side effects. -/
theorem c1_counterexample :
    ((dataAt c4Tree [Dir.left, Dir.right]).map
        (fun d => CircleEvents.HasEvent d.MiddleEvents 0)) = some false ∧
    (Voronoi.HandleNextEvent c1State).dcel.vertices = [(5, 5)] ∧
    ((Voronoi.HandleNextEvent c1State).ParabolaTree.map BTree.leafCount) = some 2 ∧
    c1State.dcel.vertices = [] ∧
    (c1State.ParabolaTree.map BTree.leafCount) = some 3 := by
  refine ⟨by decide, by decide, by decide, by decide, by decide⟩

/-- C1 (amended): the step loop makes no `MiddleEvents` membership
check — a popped circle event is dispatched to the circle-event handler
exactly when its trigger y is not below the sweep position, whatever
the participation lists say; cancellation is enforced eagerly instead:
`EventQueue.Remove` deletes the event from the queue (an event queued at
most once is gone afterwards), so a cancelled event is never popped. -/
theorem c1_dispatch_no_membership_check (s : Voronoi) (i : EventId) (s1 : Voronoi)
    (hq : queuePop s = some (i, s1))
    (hcirc : (getEvent s1 i).EventType = EType.circle)
    (hy : ¬ (getEvent s1 i).Y < s1.SweepLine) :
    s.HandleNextEvent =
      handleCircleEvent { s1 with SweepLine := (getEvent s1 i).Y } (getEvent s1 i) ∧
    ∀ (s2 : Voronoi) (j : EventId), s2.EventQueue.count j ≤ 1 →
      j ∉ (queueRemove s2 j).EventQueue := by
  constructor
  · unfold Voronoi.HandleNextEvent
    rw [hq]
    dsimp only
    rw [if_neg hy, hcirc]
  · intro s2 j hcount
    have hqueue : (queueRemove s2 j).EventQueue = s2.EventQueue.erase j := by
      unfold queueRemove
      exact (setEventIndex_fields { s2 with EventQueue := s2.EventQueue.erase j } j (-1)).2.2.2.2
    rw [hqueue]
    have hc : (s2.EventQueue.erase j).count j = s2.EventQueue.count j - 1 :=
      List.count_erase_self ..
    intro hmem
    have := List.count_pos_iff.mpr hmem
    omega

/-- The state after popping the event of `c1State`. -/
def c1State1 : Voronoi :=
  { c1State with
    events := [{ EventType := EType.circle, X := 5, Y := 8, Radius := 3,
                 SiteRef := none, Node := some 1, index := -1 }],
    EventQueue := [] }

/-- Witness for the amended C1 at `c1State`: the popped circle event is
dispatched on the y test alone, and a queued event is gone from the
queue after `EventQueue.Remove`. -/
theorem c1_dispatch_no_membership_check_witness :
    (queuePop c1State = some (0, c1State1) ∧
      (getEvent c1State1 0).EventType = EType.circle ∧
      ¬ (getEvent c1State1 0).Y < c1State1.SweepLine) ∧
    (Voronoi.HandleNextEvent c1State =
      handleCircleEvent { c1State1 with SweepLine := (getEvent c1State1 0).Y }
        (getEvent c1State1 0) ∧
      ∀ (s2 : Voronoi) (j : EventId), s2.EventQueue.count j ≤ 1 →
        j ∉ (queueRemove s2 j).EventQueue) := by
  refine ⟨⟨by decide, by decide, by decide⟩, ?_⟩
  exact c1_dispatch_no_membership_check c1State 0 c1State1 (by decide) (by decide) (by decide)

/-- The per-face edge-count multiset of a planar graph: for each face,
in order, the number of half-edges attached to it. -/
def faceEdgeCounts (d : DCEL) : Multiset Nat :=
  (d.faces.map (fun f => (d.halfEdges.filter (fun he => he.face = f)).length) : List Nat)

theorem reset_eq_of_same_sites (v1 v2 : Voronoi) (hs : v1.Sites = v2.Sites)
    (hb1 : v1.BoundsMin = v2.BoundsMin) (hb2 : v1.BoundsMax = v2.BoundsMax) :
    v1.Reset = v2.Reset := by
  unfold Voronoi.Reset
  cases v1
  cases v2
  simp only at hs hb1 hb2
  simp [hs, hb1, hb2]

/-- C8: `Generate` is deterministic and depends only on the stored site
list and bounds — the built-in `Reset` discards all other state — so two
runs over instances agreeing on sites and bounds (in particular two runs
on the same instance) produce planar graphs with identical vertex count,
edge count, face count and per-face edge-count multiset. -/
theorem c8_generate_deterministic (fuel : Nat) (v1 v2 : Voronoi)
    (hs : v1.Sites = v2.Sites) (hb1 : v1.BoundsMin = v2.BoundsMin)
    (hb2 : v1.BoundsMax = v2.BoundsMax) :
    (Voronoi.Generate fuel v1).dcel.vertices.length =
      (Voronoi.Generate fuel v2).dcel.vertices.length ∧
    (Voronoi.Generate fuel v1).dcel.halfEdges.length =
      (Voronoi.Generate fuel v2).dcel.halfEdges.length ∧
    (Voronoi.Generate fuel v1).dcel.faces.length =
      (Voronoi.Generate fuel v2).dcel.faces.length ∧
    faceEdgeCounts (Voronoi.Generate fuel v1).dcel =
      faceEdgeCounts (Voronoi.Generate fuel v2).dcel := by
  have hreset : v1.Reset = v2.Reset := reset_eq_of_same_sites v1 v2 hs hb1 hb2
  unfold Voronoi.Generate
  rw [hreset]
  exact ⟨rfl, rfl, rfl, rfl⟩

/-- A copy of `c7Voronoi` with the same sites and bounds but arbitrarily
mutated queue, tree, sweep position and graph. -/
def c8Dirty : Voronoi :=
  { c7Voronoi with
    events := [{ EventType := EType.circle, X := 9, Y := 9, Radius := 9,
                 SiteRef := none, Node := some 3, index := 2 }],
    EventQueue := [0],
    ParabolaTree := some (BTree.leaf (mkArc 9 dummySite)),
    SweepLine := 99,
    dcel := { faces := [5], vertices := [(1, 1)], halfEdges := [] },
    nextNodeId := 42 }

/-- Witness for C8: running `Generate` on `c7Voronoi` and on its dirtied
copy gives graphs with the same counts. -/
theorem c8_generate_deterministic_witness :
    (c7Voronoi.Sites = c8Dirty.Sites ∧
      c7Voronoi.BoundsMin = c8Dirty.BoundsMin ∧
      c7Voronoi.BoundsMax = c8Dirty.BoundsMax) ∧
    ((Voronoi.Generate 3 c7Voronoi).dcel.vertices.length =
        (Voronoi.Generate 3 c8Dirty).dcel.vertices.length ∧
      (Voronoi.Generate 3 c7Voronoi).dcel.halfEdges.length =
        (Voronoi.Generate 3 c8Dirty).dcel.halfEdges.length ∧
      (Voronoi.Generate 3 c7Voronoi).dcel.faces.length =
        (Voronoi.Generate 3 c8Dirty).dcel.faces.length ∧
      faceEdgeCounts (Voronoi.Generate 3 c7Voronoi).dcel =
        faceEdgeCounts (Voronoi.Generate 3 c8Dirty).dcel) := by
  refine ⟨⟨rfl, rfl, rfl⟩, ?_⟩
  exact c8_generate_deterministic 3 c7Voronoi c8Dirty rfl rfl rfl
